import Mathlib

/-!
Verification of the retrieval core of the HR bot repository
(`src/hr_bot/tools/master_actions_tool.py`).

The development shallowly embeds the `MasterActionsRetriever` /
`MasterActionsTool` code: pure fragments become Lean functions, the
stateful retriever becomes explicit state passing over a `RetrieverState`
record, and the external effects (ensemble invocation, disk-cache reads
and writes, pickle loading, file mtimes) become explicit outcome
parameters.  Python `float` arithmetic on scores is embedded as exact
fraction arithmetic: the type `Frac` below carries a numerator and a
positive denominator, its operations are structural (so that concrete
runs reduce inside the kernel), and bridge lemmas relate every operation
to the corresponding operation on `ℚ`.  All claims compare or add scores
in ways that are insensitive to the float-versus-rational distinction.
-/

namespace HRBot

/-- Exact fraction with a positive denominator.  Embeds the Python float
scores of the retrieval pipeline as exact rationals with executable,
kernel-reducible operations (no gcd normalisation). -/
structure Frac where
  num : Int
  den : Nat
  dpos : 0 < den

/-- The rational value of a `Frac`. -/
def Frac.toRat (q : Frac) : ℚ := (q.num : ℚ) / (q.den : ℚ)

/-- Fraction with numerator `n` and denominator 1. -/
def Frac.ofInt (n : Int) : Frac := ⟨n, 1, Nat.one_pos⟩

/-- Addition of fractions: `a/b + c/d = (a*d + c*b)/(b*d)`. -/
def Frac.add (a b : Frac) : Frac :=
  ⟨a.num * b.den + b.num * a.den, a.den * b.den, Nat.mul_pos a.dpos b.dpos⟩

/-- Boolean `≤` on fractions by cross multiplication. -/
def Frac.ble (a b : Frac) : Bool := decide (a.num * b.den ≤ b.num * a.den)

/-- Boolean `<` on fractions by cross multiplication. -/
def Frac.blt (a b : Frac) : Bool := decide (a.num * b.den < b.num * a.den)

/-- Maximum of two fractions (returns one of its arguments). -/
def Frac.max (a b : Frac) : Frac := if Frac.ble a b then b else a

theorem Frac.den_cast_pos (q : Frac) : (0 : ℚ) < (q.den : ℚ) := by
  exact_mod_cast q.dpos

theorem Frac.toRat_ble (a b : Frac) :
    Frac.ble a b = true ↔ a.toRat ≤ b.toRat := by
  unfold Frac.ble Frac.toRat
  rw [decide_eq_true_iff, div_le_div_iff₀ a.den_cast_pos b.den_cast_pos]
  constructor
  · intro h
    calc (a.num : ℚ) * (b.den : ℚ) = ((a.num * b.den : Int) : ℚ) := by push_cast; ring
    _ ≤ ((b.num * a.den : Int) : ℚ) := by exact_mod_cast h
    _ = (b.num : ℚ) * (a.den : ℚ) := by push_cast; ring
  · intro h
    have h' : ((a.num * b.den : Int) : ℚ) ≤ ((b.num * a.den : Int) : ℚ) := by
      push_cast
      linarith
    exact_mod_cast h'

theorem Frac.toRat_blt (a b : Frac) :
    Frac.blt a b = true ↔ a.toRat < b.toRat := by
  unfold Frac.blt Frac.toRat
  rw [decide_eq_true_iff, div_lt_div_iff₀ a.den_cast_pos b.den_cast_pos]
  constructor
  · intro h
    calc (a.num : ℚ) * (b.den : ℚ) = ((a.num * b.den : Int) : ℚ) := by push_cast; ring
    _ < ((b.num * a.den : Int) : ℚ) := by exact_mod_cast h
    _ = (b.num : ℚ) * (a.den : ℚ) := by push_cast; ring
  · intro h
    have h' : ((a.num * b.den : Int) : ℚ) < ((b.num * a.den : Int) : ℚ) := by
      push_cast
      linarith
    exact_mod_cast h'

theorem Frac.toRat_add (a b : Frac) :
    (Frac.add a b).toRat = a.toRat + b.toRat := by
  unfold Frac.add Frac.toRat
  have ha := a.den_cast_pos
  have hb := b.den_cast_pos
  rw [div_add_div _ _ (ne_of_gt ha) (ne_of_gt hb)]
  push_cast
  ring_nf

theorem Frac.toRat_max (a b : Frac) :
    (Frac.max a b).toRat = Max.max a.toRat b.toRat := by
  unfold Frac.max
  by_cases h : Frac.ble a b = true
  · rw [h]
    simp only [if_true]
    exact (max_eq_right ((Frac.toRat_ble a b).mp h)).symm
  · have h' : ¬ a.toRat ≤ b.toRat := fun hc => h ((Frac.toRat_ble a b).mpr hc)
    simp only [h, if_false]
    exact (max_eq_left (le_of_not_le h')).symm

theorem Frac.toRat_ofInt (n : Int) : (Frac.ofInt n).toRat = (n : ℚ) := by
  unfold Frac.ofInt Frac.toRat
  norm_num

/-! ### String utilities

The Python code works on `str` values with `.lower()`, `.strip()`,
substring membership (`in`), and `re.findall` word tokenisation.  The
core String functions of this Lean version are not kernel-reducible, so
the embedding works on the underlying character lists.  Lower-casing is
embedded for the ASCII range, which covers every keyword, stop word and
marker the code compares against. -/

/-- ASCII lower-casing of one character (embedding of `str.lower` on the
ASCII range). -/
def lowerChar (c : Char) : Char :=
  if 65 ≤ c.toNat ∧ c.toNat ≤ 90 then Char.ofNat (c.toNat + 32) else c

/-- Embedding of Python `s.lower()` (ASCII range). -/
def lowerStr (s : String) : String := ⟨s.data.map lowerChar⟩

/-- Whitespace test used by Python `str.strip()` (ASCII whitespace). -/
def isSpaceChar (c : Char) : Bool :=
  c == ' ' || c == '\t' || c == '\n' || c == '\r' || c.toNat == 11 || c.toNat == 12

/-- Embedding of Python `s.strip()`. -/
def stripStr (s : String) : String :=
  ⟨((s.data.dropWhile isSpaceChar).reverse.dropWhile isSpaceChar).reverse⟩

/-- `leadMatch pat l` holds when `pat` is an initial segment of `l`. -/
def leadMatch : List Char → List Char → Bool
  | [], _ => true
  | _ :: _, [] => false
  | a :: as, b :: bs => a == b && leadMatch as bs

/-- `subAt pat l`: `pat` occurs contiguously somewhere in `l`. -/
def subAt (pat : List Char) : List Char → Bool
  | [] => leadMatch pat []
  | c :: t => leadMatch pat (c :: t) || subAt pat t

/-- Embedding of Python substring membership `pat in hay`. -/
def strHasSub (hay pat : String) : Bool := subAt pat.data hay.data

/-- Word characters of the regex `\b\w+\b` (ASCII range). -/
def isWordChar (c : Char) : Bool := c.isAlphanum || c == '_'

/-- Accumulator worker for `wordRuns`. -/
def wordRunsAux : List Char → List Char → List String
  | [], acc => if acc.isEmpty then [] else [⟨acc.reverse⟩]
  | c :: cs, acc =>
    if isWordChar c then wordRunsAux cs (c :: acc)
    else if acc.isEmpty then wordRunsAux cs []
    else ⟨acc.reverse⟩ :: wordRunsAux cs []

/-- Embedding of `re.findall(r'\b\w+\b', s)`: the maximal runs of word
characters of `s`, in order. -/
def wordRuns (s : String) : List String := wordRunsAux s.data []

/-! ### Code-point order on strings

Python `sorted` on strings compares lexicographically by code point.
The embedding uses an executable Boolean comparison on character lists
and derives the order properties needed to reason about sorting. -/

/-- Lexicographic code-point comparison of character lists. -/
def charListLe : List Char → List Char → Bool
  | [], _ => true
  | _ :: _, [] => false
  | a :: as, b :: bs =>
    if a.toNat < b.toNat then true
    else if b.toNat < a.toNat then false
    else charListLe as bs

theorem charToNat_inj {a b : Char} (h : a.toNat = b.toNat) : a = b :=
  Char.ext (UInt32.ext h)

theorem charListLe_total : ∀ as bs, charListLe as bs = true ∨ charListLe bs as = true := by
  intro as
  induction as with
  | nil => intro bs; left; rfl
  | cons a as ih =>
    intro bs
    cases bs with
    | nil => right; rfl
    | cons b bs =>
      by_cases h1 : a.toNat < b.toNat
      · left; simp [charListLe, h1]
      · by_cases h2 : b.toNat < a.toNat
        · right; simp [charListLe, h2]
        · rcases ih bs with h | h
          · left; simp [charListLe, h1, h2, h]
          · right; simp [charListLe, h1, h2, h]

theorem charListLe_antisymm :
    ∀ as bs, charListLe as bs = true → charListLe bs as = true → as = bs := by
  intro as
  induction as with
  | nil =>
    intro bs h1 h2
    cases bs with
    | nil => rfl
    | cons b bs => simp [charListLe] at h2
  | cons a as ih =>
    intro bs h1 h2
    cases bs with
    | nil => simp [charListLe] at h1
    | cons b bs =>
      by_cases g1 : a.toNat < b.toNat
      · simp [charListLe, g1, Nat.lt_asymm g1] at h2
      · by_cases g2 : b.toNat < a.toNat
        · simp [charListLe, g1, g2] at h1
        · have hab : a = b := charToNat_inj (Nat.le_antisymm (Nat.le_of_not_lt g2) (Nat.le_of_not_lt g1))
          simp [charListLe, g1, g2] at h1 h2
          rw [hab, ih bs h1 h2]

theorem charListLe_trans :
    ∀ as bs cs, charListLe as bs = true → charListLe bs cs = true → charListLe as cs = true := by
  intro as
  induction as with
  | nil => intro bs cs h1 h2; rfl
  | cons a as ih =>
    intro bs cs h1 h2
    cases bs with
    | nil => simp [charListLe] at h1
    | cons b bs =>
      cases cs with
      | nil => simp [charListLe] at h2
      | cons c cs =>
        by_cases gab1 : a.toNat < b.toNat <;> by_cases gbc1 : b.toNat < c.toNat
        · simp [charListLe, Nat.lt_trans gab1 gbc1]
        · by_cases gcb : c.toNat < b.toNat
          · simp [charListLe, gbc1, gcb] at h2
          · have hbc : b.toNat = c.toNat := Nat.le_antisymm (Nat.le_of_not_lt gcb) (Nat.le_of_not_lt gbc1)
            simp [charListLe, hbc ▸ gab1]
        · by_cases gba : b.toNat < a.toNat
          · simp [charListLe, gab1, gba] at h1
          · have hab : a.toNat = b.toNat := Nat.le_antisymm (Nat.le_of_not_lt gba) (Nat.le_of_not_lt gab1)
            simp [charListLe, hab ▸ gbc1]
        · by_cases gba : b.toNat < a.toNat
          · simp [charListLe, gab1, gba] at h1
          · by_cases gcb : c.toNat < b.toNat
            · simp [charListLe, gbc1, gcb] at h2
            · have hab : a.toNat = b.toNat := Nat.le_antisymm (Nat.le_of_not_lt gba) (Nat.le_of_not_lt gab1)
              have hbc : b.toNat = c.toNat := Nat.le_antisymm (Nat.le_of_not_lt gcb) (Nat.le_of_not_lt gbc1)
              have hac1 : ¬ a.toNat < c.toNat := by omega
              have hca1 : ¬ c.toNat < a.toNat := by omega
              simp only [charListLe, gab1, gba, if_false] at h1
              simp only [charListLe, gbc1, gcb, if_false] at h2
              simp only [charListLe, hac1, hca1, if_false]
              exact ih bs cs h1 h2

/-- Embedding of Python string comparison (code-point lexicographic). -/
def strLe (a b : String) : Bool := charListLe a.data b.data

/-- Propositional form of `strLe`, used as the sorting relation. -/
def strLeP (a b : String) : Prop := strLe a b = true

instance : DecidableRel strLeP := fun a b => inferInstanceAs (Decidable (strLe a b = true))

instance : IsTotal String strLeP := ⟨fun a b => charListLe_total a.data b.data⟩

instance : IsTrans String strLeP :=
  ⟨fun a b c h1 h2 => charListLe_trans a.data b.data c.data h1 h2⟩

instance : IsAntisymm String strLeP :=
  ⟨fun a b h1 h2 => String.ext (charListLe_antisymm a.data b.data h1 h2)⟩

/-- Embedding of Python `sorted` on a list of strings. -/
def sortStrings (l : List String) : List String := List.insertionSort strLeP l

/-- Sorting strings is invariant under permutation of the input: two
permutations of each other sort to the same list. -/
theorem sortStrings_perm_inv {l l' : List String} (h : l.Perm l') :
    sortStrings l = sortStrings l' :=
  List.eq_of_perm_of_sorted
    (((List.perm_insertionSort strLeP l).trans h).trans (List.perm_insertionSort strLeP l').symm)
    (List.sorted_insertionSort strLeP l) (List.sorted_insertionSort strLeP l')

/-! ### Decimal rendering of naturals

Embedding of Python `str(n)` for a non-negative integer, written with
explicit fuel so that it reduces inside the kernel. -/

/-- The character of one decimal digit. -/
def digitChar10 (d : Nat) : Char := Char.ofNat (48 + d)

/-- Little-endian decimal digits of `n`, with fuel. -/
def digitsRevAux : Nat → Nat → List Char
  | _, 0 => []
  | 0, _ + 1 => []
  | fuel + 1, n + 1 => digitChar10 ((n + 1) % 10) :: digitsRevAux fuel ((n + 1) / 10)

/-- Embedding of Python `str(n)` for `n : Nat`. -/
def natDecimal (n : Nat) : String := if n = 0 then "0" else ⟨(digitsRevAux n n).reverse⟩

/-- Value of a little-endian digit-character list. -/
def valRev : List Char → Nat
  | [] => 0
  | c :: cs => (c.toNat - 48) + 10 * valRev cs

theorem valRev_digitsRevAux : ∀ fuel n, n ≤ fuel → valRev (digitsRevAux fuel n) = n := by
  intro fuel
  induction fuel with
  | zero =>
    intro n hn
    interval_cases n
    rfl
  | succ f ih =>
    intro n hn
    cases n with
    | zero => rfl
    | succ m =>
      have hd : (m + 1) % 10 < 10 := Nat.mod_lt _ (by norm_num)
      have hrec : (m + 1) / 10 ≤ f := by
        have := Nat.div_lt_self (Nat.succ_pos m) (by norm_num : 1 < 10)
        omega
      have hdigit : (digitChar10 ((m + 1) % 10)).toNat - 48 = (m + 1) % 10 := by
        unfold digitChar10
        set d := (m + 1) % 10 with hdef
        interval_cases d <;> rfl
      calc valRev (digitsRevAux (f + 1) (m + 1))
          = (digitChar10 ((m + 1) % 10)).toNat - 48 + 10 * valRev (digitsRevAux f ((m + 1) / 10)) := rfl
        _ = (m + 1) % 10 + 10 * ((m + 1) / 10) := by rw [hdigit, ih _ hrec]
        _ = m + 1 := Nat.mod_add_div (m + 1) 10

theorem natDecimal_inj : ∀ m n, natDecimal m = natDecimal n → m = n := by
  intro m n h
  unfold natDecimal at h
  by_cases hm : m = 0 <;> by_cases hn : n = 0
  · omega
  · exfalso
    simp only [hm, if_true, hn, if_false] at h
    have hdata : ("0" : String).data = (digitsRevAux n n).reverse := congrArg String.data h
    have : digitsRevAux n n = ['0'] := by
      have := congrArg List.reverse hdata
      simpa using this.symm
    have hv := valRev_digitsRevAux n n (le_refl n)
    rw [this] at hv
    simp [valRev] at hv
    omega
  · exfalso
    simp only [hm, if_false, hn, if_true] at h
    have hdata : (digitsRevAux m m).reverse = ("0" : String).data := congrArg String.data h
    have : digitsRevAux m m = ['0'] := by
      have := congrArg List.reverse hdata
      simpa using this
    have hv := valRev_digitsRevAux m m (le_refl m)
    rw [this] at hv
    simp [valRev] at hv
    omega
  · simp only [hm, hn, if_false] at h
    have hdata := congrArg String.data h
    have hrev : digitsRevAux m m = digitsRevAux n n := List.reverse_injective hdata
    have hv1 := valRev_digitsRevAux m m (le_refl m)
    have hv2 := valRev_digitsRevAux n n (le_refl n)
    rw [hrev] at hv1
    omega

/-- Join a list of strings with a separator (embedding of Python
`sep.join(...)` on a list in a fixed order). -/
def joinWith (sep : String) : List String → String
  | [] => ""
  | [x] => x
  | x :: y :: xs => x ++ sep ++ joinWith sep (y :: xs)

/-! ### Data model

`RetrieverConfig` is the configuration record fixed in
`MasterActionsRetriever.__init__` (lines 89-94) together with the class
attribute `CONFIDENCE_THRESHOLD` (line 45).  `PyDoc` embeds a langchain
`Document` restricted to the fields the code reads: `page_content`,
`metadata['source']` and `metadata['chunk_id']`. -/

/-- The build/search configuration of `MasterActionsRetriever`. -/
structure RetrieverConfig where
  chunk_size : Nat
  chunk_overlap : Nat
  top_k : Nat
  bm25_weight : Frac
  vector_weight : Frac
  confidence_threshold : Frac

/-- The values assigned in `__init__` (chunk_size=600, chunk_overlap=150,
top_k=5, bm25_weight=0.6, vector_weight=0.4) and the default
confidence threshold 0.3. -/
def initConfig : RetrieverConfig :=
  { chunk_size := 600
    chunk_overlap := 150
    top_k := 5
    bm25_weight := ⟨3, 5, by norm_num⟩
    vector_weight := ⟨2, 5, by norm_num⟩
    confidence_threshold := ⟨3, 10, by norm_num⟩ }

/-- A document as the retriever sees it: decoded text plus the metadata
keys the code reads. -/
structure PyDoc where
  content : String
  source : Option String
  chunk_id : Option Int

/-- Embedding of the `ActionSearchResult` dataclass. -/
structure ActionSearchResult where
  content : String
  source : String
  score : Frac
  chunk_id : Int

/-! ### Version fingerprint (`_compute_version_hash`, lines 144-164)

The Python code feeds a sequence of byte strings to an md5 hasher:
the S3 version hash if truthy, otherwise each sorted document path
followed by `str(mtime)` when `stat` succeeds; then
`"chunk:{chunk_size}|overlap:{chunk_overlap}"` and the schema tag
`"master_actions_v2"`.  Hashing successive `update` calls equals hashing
the concatenation, so the embedding produces that concatenated input
string; the digest itself is an explicit function parameter (md5 cannot
be usefully embedded, and every property of interest is either equality
of inputs, which transfers to any digest, or inequality, which transfers
to any injective digest). -/

/-- Corpus identity inputs of the retriever: `s3_version_hash` and
`document_paths` from `__init__`. -/
structure CorpusSpec where
  s3VersionHash : Option String
  documentPaths : Option (List String)

/-- Python truthiness of an optional string (`None` and `""` are falsy). -/
def truthyStr : Option String → Option String
  | some "" => none
  | some s => some s
  | none => none

/-- Python truthiness of an optional list (`None` and `[]` are falsy). -/
def truthyList : Option (List String) → Option (List String)
  | some [] => none
  | some l => some l
  | none => none

/-- The corpus-identity part of the hasher input.  `mtimeOf p` is the
decimal rendering of `Path(p).stat().st_mtime`, or `none` when `stat`
raises (the code then skips that update). -/
def corpusInput (c : CorpusSpec) (mtimeOf : String → Option String) : String :=
  match truthyStr c.s3VersionHash with
  | some tag => tag
  | none =>
    match truthyList c.documentPaths with
    | some ps => joinWith "" ((sortStrings ps).map fun p => p ++ ((mtimeOf p).getD ""))
    | none => ""

/-- The full byte string fed to the md5 hasher by
`_compute_version_hash`. -/
def versionHashInput (c : CorpusSpec) (mtimeOf : String → Option String)
    (cfg : RetrieverConfig) : String :=
  corpusInput c mtimeOf ++ ("chunk:" ++ (natDecimal cfg.chunk_size ++ ("|overlap:" ++
    (natDecimal cfg.chunk_overlap ++ "master_actions_v2"))))

/-- `_compute_version_hash`, with the md5 digest as an explicit
parameter. -/
def computeVersionHash (digest : String → String) (c : CorpusSpec)
    (mtimeOf : String → Option String) (cfg : RetrieverConfig) : String :=
  digest (versionHashInput c mtimeOf cfg)

/-! ### Query expansion (`_expand_query`, lines 384-410) -/

/-- The `action_expansions` dictionary, in its Python insertion order. -/
def actionExpansions : List (String × List String) :=
  [("apply", ["request", "submit", "file"]),
   ("download", ["get", "access", "view", "fetch"]),
   ("leave", ["vacation", "time off", "absence", "pto"]),
   ("payslip", ["salary slip", "pay stub", "salary statement"]),
   ("profile", ["personal details", "employee info", "my details"]),
   ("training", ["learning", "course", "certification", "skill"]),
   ("expense", ["reimbursement", "claim", "travel claim"]),
   ("attendance", ["punch", "check in", "clock"]),
   ("holiday", ["calendar", "public holiday", "company holiday"]),
   ("form-16", ["tax form", "income tax", "tds"]),
   ("balance", ["remaining", "available", "quota"])]

/-- The deduplicated synonym terms appended for `query`: the synonyms
of every keyword contained in the stripped, lower-cased query, in
dictionary order.  (Python builds `set(expansions)`, whose iteration
order is unspecified; the embedding fixes one order, and no claim
depends on the order of the appended terms.) -/
def expansionTerms (query : String) : List String :=
  let q := lowerStr (stripStr query)
  (((actionExpansions.filter fun kv => strHasSub q kv.1).map Prod.snd).flatten).dedup

/-- Embedding of `_expand_query`. -/
def expandQuery (query : String) : String :=
  match expansionTerms query with
  | [] => query
  | t :: ts => query ++ " " ++ joinWith " " (t :: ts)

/-! ### Result scoring (`search`, lines 450-478) -/

/-- The stop-word set of `search` (line 451). -/
def stopWords : List String :=
  ["a", "an", "the", "is", "are", "to", "for", "of", "in", "on", "how", "what", "i", "my", "can"]

/-- The distinct word tokens of the lower-cased query minus the stop
words (`set(re.findall(...)) - stop_words`). -/
def queryTokens (query : String) : List String :=
  ((wordRuns (lowerStr query)).dedup).filter fun t => !(stopWords.contains t)

/-- Number of distinct query tokens found literally in the lower-cased
content (line 460). -/
def keywordHits (query contentLower : String) : Nat :=
  ((queryTokens query).filter fun t => strHasSub contentLower t).length

/-- The fixed structural/procedural marker set (line 464). -/
def actionMarkers : List String :=
  ["link:", "steps:", "step 1", "step 2", "click", "navigate", "select", "action name:"]

/-- Whether the lower-cased content contains any action marker. -/
def hasActionMarker (contentLower : String) : Bool :=
  actionMarkers.any fun m => strHasSub contentLower m

/-- The re-scored value of the document at 0-based `rank`:
`1/(rank+1) + 0.1 * keyword_hits + (0.2 if marker else 0)`
(lines 456-467). -/
def scoreOf (query : String) (rank : Nat) (d : PyDoc) : Frac :=
  let contentLower := lowerStr d.content
  let base : Frac := ⟨1, rank + 1, Nat.succ_pos rank⟩
  let kw : Frac := ⟨keywordHits query contentLower, 10, by norm_num⟩
  let act : Frac :=
    if hasActionMarker contentLower then ⟨1, 5, by norm_num⟩ else ⟨0, 1, Nat.one_pos⟩
  (base.add kw).add act

/-- One `ActionSearchResult` as built at lines 469-474. -/
def resultOf (query : String) (rank : Nat) (d : PyDoc) : ActionSearchResult :=
  { content := d.content
    source := d.source.getD "Master Actions Guide"
    score := scoreOf query rank d
    chunk_id := d.chunk_id.getD (-1) }

/-- The scored result list in candidate order (`for rank, doc in
enumerate(docs)`). -/
def scoreDocs (query : String) : Nat → List PyDoc → List ActionSearchResult
  | _, [] => []
  | rank, d :: ds => resultOf query rank d :: scoreDocs query (rank + 1) ds

/-- The (stable) descending-by-score sort relation of
`results.sort(key=..., reverse=True)`. -/
def byScoreDesc (a b : ActionSearchResult) : Prop := Frac.ble b.score a.score = true

instance : DecidableRel byScoreDesc :=
  fun a b => inferInstanceAs (Decidable (Frac.ble b.score a.score = true))

instance : IsTotal ActionSearchResult byScoreDesc :=
  ⟨fun a b => by
    unfold byScoreDesc
    rcases le_total a.score.toRat b.score.toRat with h | h
    · exact Or.inr ((Frac.toRat_ble a.score b.score).mpr h)
    · exact Or.inl ((Frac.toRat_ble b.score a.score).mpr h)⟩

instance : IsTrans ActionSearchResult byScoreDesc :=
  ⟨fun a b c h1 h2 => by
    unfold byScoreDesc at h1 h2 ⊢
    exact (Frac.toRat_ble c.score a.score).mpr
      (le_trans ((Frac.toRat_ble c.score b.score).mp h2) ((Frac.toRat_ble b.score a.score).mp h1))⟩

/-- Embedding of the stable descending sort at line 477. -/
def sortByScoreDesc (l : List ActionSearchResult) : List ActionSearchResult :=
  List.insertionSort byScoreDesc l

/-- Embedding of `max(r.score for r in results)` (value 0 on the empty
list, which the code never reaches because of the emptiness guard). -/
def bestScore : List ActionSearchResult → Frac
  | [] => Frac.ofInt 0
  | [r] => r.score
  | r :: rs => Frac.max r.score (bestScore rs)

/-! ### The search path (`MasterActionsRetriever.search`, lines 412-483,
and `MasterActionsTool._run`, lines 557-604)

The retriever instance state is the fields the search path reads:
`vector_store`, `ensemble_retriever`, `documents`, `index_hash`.  The
effectful collaborators become explicit outcomes in `SearchEnv`:
the diskcache `get`/`set` calls may raise (error channel) or return a
cached value, and `ensemble_retriever.invoke` may raise or return a
candidate list.  Exceptions are modelled with `Except`: an `error`
value propagates exactly where a Python exception would. -/

/-- The retriever-instance fields read by the search path. -/
structure RetrieverState where
  hasVectorStore : Bool
  hasEnsemble : Bool
  documents : List PyDoc
  indexHash : Option String

/-- The truthiness test at line 423 (`not self.vector_store or not
self.ensemble_retriever or not self.documents`). -/
def isBuilt (st : RetrieverState) : Bool :=
  st.hasVectorStore && st.hasEnsemble && !st.documents.isEmpty

/-- Outcomes of the external effects of one `search` call. -/
structure SearchEnv where
  cache : List (String × List ActionSearchResult)
  cacheGetFail : Option String
  invoke : Except String (List PyDoc)
  cacheSetFail : Option String

/-- Lookup in the search cache. -/
def lookupCache (c : List (String × List ActionSearchResult)) (k : String) :
    Option (List ActionSearchResult) :=
  (c.find? fun p => p.1 == k).map Prod.snd

/-- `top_k = top_k or self.top_k` (line 427): `None` and `0` are falsy
and fall back to the instance default 5. -/
def resolveTopK : Option Nat → Nat
  | none => 5
  | some 0 => 5
  | some (k + 1) => k + 1

/-- The cache key `f"master_search:{index_hash}:{expanded_query}:{top_k}"`
(line 433; Python renders `None` as the string `"None"`). -/
def mkCacheKey (h : Option String) (expanded : String) (k : Nat) : String :=
  "master_search:" ++ h.getD "None" ++ ":" ++ expanded ++ ":" ++ natDecimal k

/-- One `search` call: the returned value (or propagated exception) and
the cache contents afterwards. -/
def searchStep (st : RetrieverState) (env : SearchEnv) (query : String) (topK : Option Nat) :
    Except String (List ActionSearchResult) × List (String × List ActionSearchResult) :=
  if isBuilt st = false then (Except.ok [], env.cache)
  else
    let k := resolveTopK topK
    let expanded := expandQuery query
    let key := mkCacheKey st.indexHash expanded k
    match env.cacheGetFail with
    | some e => (Except.error e, env.cache)
    | none =>
      match lookupCache env.cache key with
      | some (r :: rs) => (Except.ok (r :: rs), env.cache)
      | _ =>
        match env.invoke with
        | Except.error _ => (Except.ok [], env.cache)
        | Except.ok docs =>
          if docs.isEmpty then (Except.ok [], env.cache)
          else
            let results := (sortByScoreDesc (scoreDocs query 0 docs)).take k
            match env.cacheSetFail with
            | some e => (Except.error e, env.cache)
            | none => (Except.ok results, (key, results) :: env.cache)

/-- The value returned (or exception raised) by `search`. -/
def searchE (st : RetrieverState) (env : SearchEnv) (query : String)
    (topK : Option Nat) : Except String (List ActionSearchResult) :=
  (searchStep st env query topK).1

/-- The miss sentinel of `_run`. -/
def missSentinel : String := "NO_ACTION_FOUND"

/-- Left-pad the fractional part to three digits. -/
def pad3 (n : Nat) : String :=
  if n < 10 then "00" ++ natDecimal n
  else if n < 100 then "0" ++ natDecimal n
  else natDecimal n

/-- Three-decimal rendering of a (non-negative) score, standing in for
Python `f"{score:.3f}"`.  The embedding rounds the exact rational
half-up; Python rounds the nearest binary double half-even.  No claim
depends on the printed digits. -/
def fmt3 (q : Frac) : String :=
  let t := (2 * 1000 * q.num.toNat + q.den) / (2 * q.den)
  natDecimal (t / 1000) ++ "." ++ pad3 (t % 1000)

/-- One block of the formatted output (lines 590-592). -/
def resultBlock (idx : Nat) (r : ActionSearchResult) : String :=
  "**[" ++ natDecimal idx ++ "]** (Score: " ++ fmt3 r.score ++ ")\n" ++ r.content ++ "\n\n"

/-- The formatted blocks for all results, 1-indexed. -/
def resultBlocks : Nat → List ActionSearchResult → String
  | _, [] => ""
  | idx, r :: rs => resultBlock idx r ++ resultBlocks (idx + 1) rs

/-- The populated-results payload of `_run` (lines 587-599).  Python
collects the sources into a `set` while looping; the embedding
deduplicates in list order, and no claim depends on the source order. -/
def formatResults (results : List ActionSearchResult) : String :=
  "Found " ++ natDecimal results.length ++ " relevant action(s):\n\n" ++
    resultBlocks 1 results ++
    "Sources: " ++ joinWith " â€¢ " ((results.map fun r => r.source).dedup) ++ "\n"

/-- Embedding of `MasterActionsTool._run`.  The `try`/`except` of lines
567-604 catches any exception escaping `search` and formats it into the
returned string. -/
def runE (st : RetrieverState) (env : SearchEnv) (threshold : Frac) (query : String) : String :=
  if st.documents.isEmpty then missSentinel
  else
    match searchE st env query (some 5) with
    | Except.error e => "Error searching actions: " ++ e
    | Except.ok results =>
      if results.isEmpty then missSentinel
      else if Frac.blt (bestScore results) threshold then missSentinel
      else formatResults results

/-- The cache invariant: every non-empty stored result list has maximum
score at least 1 (all lists the code ever stores are outputs of the
compute path). -/
def CacheOK (c : List (String × List ActionSearchResult)) : Prop :=
  ∀ p ∈ c, p.2 ≠ [] → 1 ≤ (bestScore p.2).toRat

/-! ### Persistence (`_load_index`, lines 265-306, and `build_index`,
lines 327-382) -/

/-- Subtraction of fractions. -/
def Frac.sub (a b : Frac) : Frac :=
  ⟨a.num * b.den - b.num * a.den, a.den * b.den, Nat.mul_pos a.dpos b.dpos⟩

/-- Division of a fraction by a positive natural. -/
def Frac.divPos (q : Frac) (k : Nat) (h : 0 < k) : Frac :=
  ⟨q.num, q.den * k, Nat.mul_pos q.dpos h⟩

/-- The contents of the pickled bm25 bundle as far as the claims read
them (`documents` list and stored `index_hash`; the BM25 object itself
is opaque to every claim). -/
structure StoredBundle where
  documents : List PyDoc
  indexHash : Option String

/-- The on-disk situation one `_load_index` call observes:
file existence, wall-clock time, the pickle file's mtime, the unpickled
bundle (`none` models a pickle failure) and whether the FAISS load
succeeds. -/
structure LoadEnv where
  filesPresent : Bool
  now : Frac
  bm25Mtime : Frac
  stored : Option StoredBundle
  faissOk : Bool

/-- `index_age_hours = (time.time() - mtime) / 3600` (line 273). -/
def indexAgeHours (env : LoadEnv) : Frac :=
  (env.now.sub env.bm25Mtime).divPos 3600 (by norm_num)

/-- Embedding of `_load_index`: `none` is the `return False` paths (the
caller then rebuilds), `some st` the successfully installed state.  The
checks run in source order: file existence, 24-hour TTL, unpickle,
fingerprint equality, FAISS load; `_build_retrievers` then installs the
ensemble iff the document list is non-empty. -/
def loadIndex (env : LoadEnv) (currentHash : String) : Option RetrieverState :=
  if env.filesPresent = false then none
  else if Frac.blt ⟨24, 1, Nat.one_pos⟩ (indexAgeHours env) then none
  else
    match env.stored with
    | none => none
    | some data =>
      if data.indexHash ≠ some currentHash then none
      else if env.faissOk = false then none
      else some
        { hasVectorStore := true
          hasEnsemble := !data.documents.isEmpty
          documents := data.documents
          indexHash := data.indexHash }

/-- Chunk-id assignment after splitting (lines 233-234). -/
def assignChunkIds (chunks : List PyDoc) : List PyDoc :=
  chunks.enum.map fun p => { p.2 with chunk_id := some (p.1 : Int) }

/-- External collaborators of one `build_index` call: the load outcome
inputs, the decoded master document list (empty when
`_find_master_document` finds nothing) and the text splitter. -/
structure BuildEnv where
  lenv : LoadEnv
  rawDocs : List PyDoc
  chunker : List PyDoc → List PyDoc
  mtimeOf : String → Option String

/-- Embedding of `build_index`: `force_rebuild` deletes the persisted
files and skips the load; a successful load installs the loaded state;
an empty corpus returns with the state unchanged; otherwise the chunked
documents are installed and both indexes built. -/
def buildIndex (digest : String → String) (corpus : CorpusSpec) (cfg : RetrieverConfig)
    (benv : BuildEnv) (st : RetrieverState) (force : Bool) : RetrieverState :=
  let currentHash := computeVersionHash digest corpus benv.mtimeOf cfg
  match (if force then none else loadIndex benv.lenv currentHash) with
  | some loaded => loaded
  | none =>
    if benv.rawDocs.isEmpty then st
    else
      let chunks := assignChunkIds (benv.chunker benv.rawDocs)
      if chunks.isEmpty then { st with documents := chunks }
      else
        { hasVectorStore := true
          hasEnsemble := true
          documents := chunks
          indexHash := some currentHash }

/-- The unbuilt state of a freshly initialised retriever (lines 69-74). -/
def initState : RetrieverState :=
  { hasVectorStore := false, hasEnsemble := false, documents := [], indexHash := none }

/-! ### Ensemble configuration (`_build_retrievers`, lines 308-325) -/

/-- `base_k = max(self.top_k, 5)` (line 313). -/
def ensembleBaseK (top_k : Nat) : Nat := Max.max top_k 5

/-- The retrieval parameters `_build_retrievers` installs: candidate
counts for the two retrievers and the ensemble weights. -/
structure EnsembleParams where
  bm25K : Nat
  faissK : Nat
  weights : List Frac

/-- The parameters built at lines 313-325. -/
def buildRetrieverParams (cfg : RetrieverConfig) : EnsembleParams :=
  { bm25K := ensembleBaseK cfg.top_k * 2
    faissK := ensembleBaseK cfg.top_k * 2
    weights := [cfg.bm25_weight, cfg.vector_weight] }

/-- Modelled from the spec: the external langchain `EnsembleRetriever`
(imported at line 18, not part of this repository) fuses the two ranked
candidate lists by weighted reciprocal rank.  `rankContribution w r` is
a single list's contribution: `w / (rank + 1)` when the chunk appears at
0-based `rank`, and zero when it is absent. -/
def rankContribution (w : ℚ) (rank : Option Nat) : ℚ :=
  match rank with
  | some r => w / (r + 1)
  | none => 0

/-- Modelled from the spec: the fused score of chunk `c` given the
sparse and dense ranked lists. -/
def fusedScore (bw vw : ℚ) (sparse dense : List Nat) (c : Nat) : ℚ :=
  rankContribution bw (List.indexOf? c sparse) + rankContribution vw (List.indexOf? c dense)

/-! ### Helper lemmas -/

theorem strApp_cancel_left {x a b : String} (h : x ++ a = x ++ b) : a = b := by
  have hd := congrArg String.data h
  rw [String.data_append, String.data_append] at hd
  exact String.ext (List.append_cancel_left hd)

theorem strApp_cancel_right {a b y : String} (h : a ++ y = b ++ y) : a = b := by
  have hd := congrArg String.data h
  rw [String.data_append, String.data_append] at hd
  have hlen : a.data.length = b.data.length := by
    have hl := congrArg List.length hd
    simp only [List.length_append] at hl
    omega
  exact String.ext ((List.append_inj hd hlen).1)

/-- The hasher input depends on the configuration only through
`chunk_size` and `chunk_overlap`. -/
theorem versionHashInput_congr (c : CorpusSpec) (m : String → Option String)
    {cfg cfg' : RetrieverConfig} (h1 : cfg.chunk_size = cfg'.chunk_size)
    (h2 : cfg.chunk_overlap = cfg'.chunk_overlap) :
    versionHashInput c m cfg = versionHashInput c m cfg' := by
  unfold versionHashInput
  rw [h1, h2]

/-- Different `chunk_size` (same corpus, same overlap) gives a different
hasher input. -/
theorem versionHashInput_ne_of_size_ne (c : CorpusSpec) (m : String → Option String)
    {cfg cfg' : RetrieverConfig} (h2 : cfg.chunk_overlap = cfg'.chunk_overlap)
    (h1 : cfg.chunk_size ≠ cfg'.chunk_size) :
    versionHashInput c m cfg ≠ versionHashInput c m cfg' := by
  intro h
  unfold versionHashInput at h
  rw [h2] at h
  have h3 := strApp_cancel_left (strApp_cancel_left h)
  exact h1 (natDecimal_inj _ _ (strApp_cancel_right h3))

/-- Different `chunk_overlap` (same corpus, same size) gives a different
hasher input. -/
theorem versionHashInput_ne_of_overlap_ne (c : CorpusSpec) (m : String → Option String)
    {cfg cfg' : RetrieverConfig} (h1 : cfg.chunk_size = cfg'.chunk_size)
    (h2 : cfg.chunk_overlap ≠ cfg'.chunk_overlap) :
    versionHashInput c m cfg ≠ versionHashInput c m cfg' := by
  intro h
  unfold versionHashInput at h
  rw [h1] at h
  have h3 := strApp_cancel_left (strApp_cancel_left (strApp_cancel_left (strApp_cancel_left h)))
  exact h2 (natDecimal_inj _ _ (strApp_cancel_right h3))

theorem le_bestScore_of_mem :
    ∀ (l : List ActionSearchResult) (r : ActionSearchResult), r ∈ l →
      r.score.toRat ≤ (bestScore l).toRat := by
  intro l
  induction l with
  | nil => intro r hr; cases hr
  | cons a rs ih =>
    intro r hr
    cases rs with
    | nil =>
      have : r = a := by simpa using hr
      subst this
      exact le_refl _
    | cons b rs' =>
      have hbs : bestScore (a :: b :: rs') = Frac.max a.score (bestScore (b :: rs')) := rfl
      rw [hbs, Frac.toRat_max]
      rcases List.mem_cons.mp hr with h | h'
      · subst h
        exact le_max_left _ _
      · exact le_trans (ih r h') (le_max_right _ _)

/-- In a list sorted descending by score, the head's score dominates. -/
theorem sorted_head_score_le {h : ActionSearchResult} {t : List ActionSearchResult}
    (hs : List.Sorted byScoreDesc (h :: t)) :
    ∀ x ∈ h :: t, x.score.toRat ≤ h.score.toRat := by
  intro x hx
  rcases List.mem_cons.mp hx with rfl | hx'
  · exact le_refl _
  · exact (Frac.toRat_ble x.score h.score).mp (List.rel_of_sorted_cons hs x hx')

theorem one_le_scoreOf_zero (q : String) (d : PyDoc) : 1 ≤ (scoreOf q 0 d).toRat := by
  unfold scoreOf
  simp only [Frac.toRat_add]
  have h1 : (Frac.mk 1 (0 + 1) (Nat.succ_pos 0)).toRat = 1 := by
    simp [Frac.toRat]
  have h2 : 0 ≤ (Frac.mk (keywordHits q (lowerStr d.content)) 10 (by norm_num)).toRat := by
    simp only [Frac.toRat]
    positivity
  have h3 : 0 ≤ (if hasActionMarker (lowerStr d.content) then (⟨1, 5, by norm_num⟩ : Frac)
      else (⟨0, 1, Nat.one_pos⟩ : Frac)).toRat := by
    split <;> norm_num [Frac.toRat]
  rw [h1]
  linarith

theorem one_le_resolveTopK : ∀ t, 1 ≤ resolveTopK t := by
  intro t
  match t with
  | none => exact by norm_num [resolveTopK]
  | some 0 => exact by norm_num [resolveTopK]
  | some (k + 1) => exact Nat.succ_le_succ (Nat.zero_le k)

/-- The candidate list computed and cached at lines 450-481. -/
def computeResults (query : String) (k : Nat) (docs : List PyDoc) : List ActionSearchResult :=
  (sortByScoreDesc (scoreDocs query 0 docs)).take k

/-- Any non-empty computed result list has maximum score at least 1:
the rank-0 candidate scores at least `1/(0+1) = 1`, and the descending
sort puts a dominating element first, which survives any truncation to
`k ≥ 1`. -/
theorem one_le_bestScore_computeResults (q : String) (docs : List PyDoc)
    (hd : docs ≠ []) (k : Nat) (hk : 1 ≤ k) :
    1 ≤ (bestScore (computeResults q k docs)).toRat := by
  match docs, hd with
  | d :: ds, _ =>
    have hscored : scoreDocs q 0 (d :: ds) = resultOf q 0 d :: scoreDocs q 1 ds := rfl
    have hmem0 : resultOf q 0 d ∈ scoreDocs q 0 (d :: ds) := by
      rw [hscored]; exact List.mem_cons_self _ _
    have hperm := List.perm_insertionSort byScoreDesc (scoreDocs q 0 (d :: ds))
    have hsorted := List.sorted_insertionSort byScoreDesc (scoreDocs q 0 (d :: ds))
    have hlen : (sortByScoreDesc (scoreDocs q 0 (d :: ds))).length =
        (scoreDocs q 0 (d :: ds)).length := List.length_insertionSort _ _
    match hS : sortByScoreDesc (scoreDocs q 0 (d :: ds)) with
    | [] =>
      exfalso
      rw [hS] at hlen
      rw [hscored] at hlen
      simp at hlen
    | h :: t =>
      have hmemS : resultOf q 0 d ∈ h :: t := by
        rw [← hS]
        exact (hperm.mem_iff).mpr hmem0
      have hdom : (resultOf q 0 d).score.toRat ≤ h.score.toRat := by
        have hs' : List.Sorted byScoreDesc (h :: t) := by
          rw [← hS]
          exact hsorted
        exact sorted_head_score_le hs' _ hmemS
      have htake : computeResults q k (d :: ds) = h :: List.take (k - 1) t := by
        unfold computeResults
        rw [hS]
        match k, hk with
        | k' + 1, _ => rfl
      have hheadmem : h ∈ computeResults q k (d :: ds) := by
        rw [htake]; exact List.mem_cons_self _ _
      have h0 : 1 ≤ (resultOf q 0 d).score.toRat := one_le_scoreOf_zero q d
      have hbs := le_bestScore_of_mem _ h hheadmem
      linarith

theorem searchE_unbuilt {st : RetrieverState} (env : SearchEnv) (q : String) (t : Option Nat)
    (h : isBuilt st = false) : searchE st env q t = Except.ok [] := by
  unfold searchE searchStep
  rw [if_pos h]

theorem isBuilt_false_of_docs_empty {st : RetrieverState} (h : st.documents = []) :
    isBuilt st = false := by
  unfold isBuilt
  rw [h]
  simp

/-- Exhaustive description of one `search` call: it raises (propagating
a cache failure), returns `[]`, returns a cache hit, or returns the
freshly computed list and stores it. -/
theorem searchStep_cases (st : RetrieverState) (env : SearchEnv) (q : String) (t : Option Nat) :
    (∃ e, searchStep st env q t = (Except.error e, env.cache)) ∨
    searchStep st env q t = (Except.ok [], env.cache) ∨
    (∃ r rs, searchStep st env q t = (Except.ok (r :: rs), env.cache) ∧
      lookupCache env.cache (mkCacheKey st.indexHash (expandQuery q) (resolveTopK t)) =
        some (r :: rs)) ∨
    (∃ docs, env.invoke = Except.ok docs ∧ docs ≠ [] ∧
      searchStep st env q t =
        (Except.ok (computeResults q (resolveTopK t) docs),
         (mkCacheKey st.indexHash (expandQuery q) (resolveTopK t),
          computeResults q (resolveTopK t) docs) :: env.cache)) := by
  unfold searchStep
  by_cases hb : isBuilt st = false
  · rw [if_pos hb]
    right; left; rfl
  · rw [if_neg hb]
    simp only
    cases hg : env.cacheGetFail with
    | some e =>
      left
      exact ⟨e, rfl⟩
    | none =>
      dsimp only
      cases hl : lookupCache env.cache (mkCacheKey st.indexHash (expandQuery q) (resolveTopK t)) with
      | some l =>
        cases l with
        | cons r rs =>
          right; right; left
          exact ⟨r, rs, rfl, rfl⟩
        | nil =>
          dsimp only
          cases hi : env.invoke with
          | error e => right; left; rfl
          | ok docs =>
            dsimp only
            by_cases hde : docs.isEmpty = true
            · rw [if_pos hde]
              right; left; rfl
            · rw [if_neg hde]
              cases hsf : env.cacheSetFail with
              | some e => left; exact ⟨e, rfl⟩
              | none =>
                right; right; right
                exact ⟨docs, rfl, fun hnil => hde (by rw [hnil]; rfl), rfl⟩
      | none =>
        dsimp only
        cases hi : env.invoke with
        | error e => right; left; rfl
        | ok docs =>
          dsimp only
          by_cases hde : docs.isEmpty = true
          · rw [if_pos hde]
            right; left; rfl
          · rw [if_neg hde]
            cases hsf : env.cacheSetFail with
            | some e => left; exact ⟨e, rfl⟩
            | none =>
              right; right; right
              exact ⟨docs, rfl, fun hnil => hde (by rw [hnil]; rfl), rfl⟩

theorem cacheOK_lookup {c : List (String × List ActionSearchResult)} {key : String}
    {l : List ActionSearchResult} (hc : CacheOK c) (hl : lookupCache c key = some l)
    (hne : l ≠ []) : 1 ≤ (bestScore l).toRat := by
  unfold lookupCache at hl
  cases hf : c.find? fun p => p.1 == key with
  | none => rw [hf] at hl; simp at hl
  | some p =>
    rw [hf] at hl
    simp only [Option.map_some'] at hl
    have hp := List.mem_of_find?_eq_some hf
    have h2 := hc p hp
    have hpl : p.2 = l := Option.some.inj hl
    rw [hpl] at h2
    exact h2 hne

theorem runE_of_searchE_ok {st : RetrieverState} {env : SearchEnv} {q : String}
    {rs : List ActionSearchResult} (thr : Frac)
    (hd : st.documents.isEmpty = false) (h : searchE st env q (some 5) = Except.ok rs) :
    runE st env thr q =
      if rs.isEmpty = true then missSentinel
      else if Frac.blt (bestScore rs) thr = true then missSentinel
      else formatResults rs := by
  unfold runE
  simp only [hd, Bool.false_eq_true, if_false, h]

/-! ### The claims -/

/-- C1: for every query handled by `_run` on a built index, if the
retriever's search returns a non-empty result list whose maximum score
is strictly below the confidence threshold, the tool returns the miss
sentinel `"NO_ACTION_FOUND"` and not a populated result list. -/
theorem run_gates_low_confidence_to_miss
    (st : RetrieverState) (env : SearchEnv) (thr : Frac) (q : String)
    (rs : List ActionSearchResult)
    (h1 : searchE st env q (some 5) = Except.ok rs) (h2 : rs ≠ [])
    (h3 : (bestScore rs).toRat < thr.toRat) :
    runE st env thr q = missSentinel := by
  have hd : st.documents.isEmpty = false := by
    cases hde : st.documents.isEmpty with
    | false => rfl
    | true =>
      exfalso
      have hb := isBuilt_false_of_docs_empty (List.isEmpty_iff.mp hde)
      rw [searchE_unbuilt env q (some 5) hb] at h1
      exact h2 (Except.ok.inj h1).symm
  rw [runE_of_searchE_ok thr hd h1]
  have hrs : rs.isEmpty = false := by
    cases rs with
    | nil => exact absurd rfl h2
    | cons a l => rfl
  have hblt : Frac.blt (bestScore rs) thr = true := (Frac.toRat_blt _ _).mpr h3
  simp only [hrs, Bool.false_eq_true, if_false, hblt, if_true]

/-- Concrete state for the C1 witness: a built index and a cached
low-confidence result list. -/
def c1State : RetrieverState :=
  { hasVectorStore := true
    hasEnsemble := true
    documents := [⟨"Action Name: Apply Leave", some "Master.docx", some 0⟩]
    indexHash := some "h" }

/-- A cached result whose score 0.2 is below the default threshold. -/
def c1Low : ActionSearchResult := ⟨"weak match", "Master.docx", ⟨1, 5, by norm_num⟩, 0⟩

/-- Search environment for the C1 witness: the cache already holds the
low-confidence list under the query's cache key. -/
def c1Env : SearchEnv :=
  { cache := [(mkCacheKey (some "h") (expandQuery "payroll") 5, [c1Low])]
    cacheGetFail := none
    invoke := Except.ok []
    cacheSetFail := none }

theorem run_gates_low_confidence_to_miss_witness :
    searchE c1State c1Env "payroll" (some 5) = Except.ok [c1Low] ∧
    (bestScore [c1Low]).toRat < initConfig.confidence_threshold.toRat ∧
    runE c1State c1Env initConfig.confidence_threshold "payroll" = missSentinel := by
  refine ⟨rfl, (Frac.toRat_blt _ _).mp (by decide), ?_⟩
  exact run_gates_low_confidence_to_miss c1State c1Env initConfig.confidence_threshold "payroll"
    [c1Low] rfl (List.cons_ne_nil _ _) ((Frac.toRat_blt _ _).mp (by decide))

/-- C2: whenever `search` returns a non-empty result list (under the
invariant that every non-empty cached list was itself produced by the
compute path, which the second conjunct shows is preserved), the maximum
score is at least 1 — the rank-0 candidate's base score is
`1/(0+1) = 1`, the descending sort puts a maximal element first and
truncating to `top_k ≥ 1` keeps it — and consequently with the default
threshold 0.3 the gate in `_run` never suppresses a non-empty result
list: `_run` then returns the populated payload. -/
theorem search_nonempty_max_ge_one
    (st : RetrieverState) (env : SearchEnv) (q : String) (t : Option Nat)
    (hc : CacheOK env.cache) :
    (∀ rs, searchE st env q t = Except.ok rs → rs ≠ [] → 1 ≤ (bestScore rs).toRat) ∧
    CacheOK (searchStep st env q t).2 ∧
    (∀ rs, searchE st env q (some 5) = Except.ok rs → rs ≠ [] →
      runE st env initConfig.confidence_threshold q = formatResults rs) := by
  have main : ∀ (t' : Option Nat) rs, searchE st env q t' = Except.ok rs → rs ≠ [] →
      1 ≤ (bestScore rs).toRat := by
    intro t' rs hok hne
    rcases searchStep_cases st env q t' with ⟨e, hcase⟩ | hcase | ⟨r, rs', hcase, hl⟩ |
      ⟨docs, hi, hdne, hcase⟩
    · unfold searchE at hok
      rw [hcase] at hok
      exact absurd hok (by simp)
    · unfold searchE at hok
      rw [hcase] at hok
      exact absurd (Except.ok.inj hok).symm hne
    · unfold searchE at hok
      rw [hcase] at hok
      have heq : r :: rs' = rs := Except.ok.inj hok
      subst heq
      exact cacheOK_lookup hc hl hne
    · unfold searchE at hok
      rw [hcase] at hok
      have heq : computeResults q (resolveTopK t') docs = rs := Except.ok.inj hok
      subst heq
      exact one_le_bestScore_computeResults q docs hdne _ (one_le_resolveTopK t')
  refine ⟨main t, ?_, ?_⟩
  · rcases searchStep_cases st env q t with ⟨e, hcase⟩ | hcase | ⟨r, rs', hcase, hl⟩ |
      ⟨docs, hi, hdne, hcase⟩
    · rw [hcase]; exact hc
    · rw [hcase]; exact hc
    · rw [hcase]; exact hc
    · rw [hcase]
      intro p hp hpne
      rcases List.mem_cons.mp hp with heq | hp'
      · subst heq
        exact one_le_bestScore_computeResults q docs hdne _ (one_le_resolveTopK t)
      · exact hc p hp' hpne
  · intro rs hok hne
    have hbest := main (some 5) rs hok hne
    have hd : st.documents.isEmpty = false := by
      cases hde : st.documents.isEmpty with
      | false => rfl
      | true =>
        exfalso
        have hb := isBuilt_false_of_docs_empty (List.isEmpty_iff.mp hde)
        rw [searchE_unbuilt env q (some 5) hb] at hok
        exact hne (Except.ok.inj hok).symm
    rw [runE_of_searchE_ok _ hd hok]
    have hrs : rs.isEmpty = false := by
      cases rs with
      | nil => exact absurd rfl hne
      | cons a l => rfl
    have hthr : initConfig.confidence_threshold.toRat = 3 / 10 := by
      norm_num [initConfig, Frac.toRat]
    have hblt : Frac.blt (bestScore rs) initConfig.confidence_threshold = false := by
      cases hb : Frac.blt (bestScore rs) initConfig.confidence_threshold with
      | false => rfl
      | true =>
        exfalso
        have hlt := (Frac.toRat_blt _ _).mp hb
        rw [hthr] at hlt
        linarith
    simp only [hrs, Bool.false_eq_true, if_false, hblt]

/-- The single chunk of the C2 witness index. -/
def c2Doc : PyDoc :=
  ⟨"Action Name: Apply Leave. Step 1: open the HR portal.", some "Master.docx", some 0⟩

/-- Built retriever state for the C2 witness. -/
def c2State : RetrieverState :=
  { hasVectorStore := true
    hasEnsemble := true
    documents := [c2Doc]
    indexHash := some "h" }

/-- Environment for the C2 witness: cache empty, ensemble returns the
one chunk. -/
def c2Env : SearchEnv :=
  { cache := []
    cacheGetFail := none
    invoke := Except.ok [c2Doc]
    cacheSetFail := none }

/-- The result list the C2 witness search computes. -/
def c2Results : List ActionSearchResult := computeResults "apply leave" 5 [c2Doc]

theorem search_nonempty_max_ge_one_witness :
    CacheOK c2Env.cache ∧
    searchE c2State c2Env "apply leave" (some 5) = Except.ok c2Results ∧
    c2Results ≠ [] ∧
    1 ≤ (bestScore c2Results).toRat ∧
    runE c2State c2Env initConfig.confidence_threshold "apply leave" = formatResults c2Results := by
  have hc : CacheOK c2Env.cache := fun p hp => absurd hp (List.not_mem_nil p)
  have hne : c2Results ≠ [] := fun h => absurd (congrArg List.length h) (by decide)
  have hth := search_nonempty_max_ge_one c2State c2Env "apply leave" (some 5) hc
  exact ⟨hc, rfl, hne, hth.1 c2Results rfl hne, hth.2.2 c2Results rfl hne⟩

/-- Built retriever state used by the C3 counterexample. -/
def c3State : RetrieverState :=
  { hasVectorStore := true
    hasEnsemble := true
    documents := [⟨"some action text", none, none⟩]
    indexHash := none }

/-- Environment whose cache read raises (a diskcache failure). -/
def c3Env : SearchEnv :=
  { cache := []
    cacheGetFail := some "disk error"
    invoke := Except.ok []
    cacheSetFail := none }

/-- C3 counterexample: when an exception escapes `search` (here a cache
read failure at line 434, outside the `try` of lines 439-444), the
catch-all of `_run` (lines 603-604) returns the raw internal error
message `"Error searching actions: disk error"` — not the miss sentinel
and not a ranked-results payload. -/
theorem run_error_string_counterexample :
    runE c3State c3Env initConfig.confidence_threshold "query" =
      "Error searching actions: disk error" ∧
    runE c3State c3Env initConfig.confidence_threshold "query" ≠ missSentinel ∧
    (∀ rs, runE c3State c3Env initConfig.confidence_threshold "query" ≠ formatResults rs) := by
  refine ⟨rfl, by decide, ?_⟩
  intro rs h
  have hdata := congrArg String.data h
  have hlead : (runE c3State c3Env initConfig.confidence_threshold "query").data.take 6 =
      "Error ".data := rfl
  have hlead2 : (formatResults rs).data.take 6 = "Found ".data := by
    unfold formatResults
    simp only [String.data_append, List.append_assoc]
    rw [List.take_append_of_le_length (by decide)]
    decide
  rw [hdata] at hlead
  rw [hlead2] at hlead
  exact absurd hlead (by decide)

/-- C3 amended: a failure of the retrieval call itself
(`ensemble_retriever.invoke`, the `try` of lines 439-444) is caught
inside `search`, converted to an empty result list, and surfaces from
`_run` as the miss sentinel; but an exception raised outside that `try`
block (such as a search-cache read failure) reaches the catch-all of
`_run`, which returns an `"Error searching actions: ..."` string
instead of the miss signal. -/
theorem run_invoke_failure_yields_miss
    (st : RetrieverState) (env : SearchEnv) (thr : Frac) (q : String) (msg : String)
    (hg : env.cacheGetFail = none)
    (hm : lookupCache env.cache
      (mkCacheKey st.indexHash (expandQuery q) (resolveTopK (some 5))) = none)
    (hi : env.invoke = Except.error msg) :
    runE st env thr q = missSentinel := by
  by_cases hd : st.documents.isEmpty = true
  · unfold runE
    rw [if_pos hd]
  · have hok : searchE st env q (some 5) = Except.ok [] := by
      unfold searchE searchStep
      by_cases hb : isBuilt st = false
      · rw [if_pos hb]
      · rw [if_neg hb]
        simp only
        rw [hg]
        dsimp only
        rw [hm]
        dsimp only
        rw [hi]
    have hd' : st.documents.isEmpty = false := by
      cases hde : st.documents.isEmpty with
      | false => rfl
      | true => exact absurd hde hd
    rw [runE_of_searchE_ok thr hd' hok]
    rfl

/-- Built state for the C3 amended-claim witness. -/
def c3aState : RetrieverState :=
  { hasVectorStore := true
    hasEnsemble := true
    documents := [⟨"some action text", none, none⟩]
    indexHash := none }

/-- Environment whose ensemble invocation raises. -/
def c3aEnv : SearchEnv :=
  { cache := []
    cacheGetFail := none
    invoke := Except.error "boom"
    cacheSetFail := none }

theorem run_invoke_failure_yields_miss_witness :
    c3aEnv.invoke = Except.error "boom" ∧
    runE c3aState c3aEnv initConfig.confidence_threshold "apply leave" = missSentinel := by
  refine ⟨rfl, ?_⟩
  exact run_invoke_failure_yields_miss c3aState c3aEnv initConfig.confidence_threshold
    "apply leave" "boom" rfl rfl rfl

/-- Fixed corpus identity for the C4 counterexample. -/
def c4Corpus : CorpusSpec := ⟨some "v1", none⟩

/-- Fixed mtime oracle for the C4 counterexample. -/
def c4Mtime : String → Option String := fun _ => none

/-- `initConfig` with only `top_k` changed. -/
def c4CfgTopK : RetrieverConfig := { initConfig with top_k := 7 }

/-- `initConfig` with only `bm25_weight` changed. -/
def c4CfgBW : RetrieverConfig := { initConfig with bm25_weight := ⟨1, 2, by norm_num⟩ }

/-- `initConfig` with only `vector_weight` changed. -/
def c4CfgVW : RetrieverConfig := { initConfig with vector_weight := ⟨1, 2, by norm_num⟩ }

/-- `initConfig` with only `confidence_threshold` changed. -/
def c4CfgCT : RetrieverConfig := { initConfig with confidence_threshold := ⟨1, 2, by norm_num⟩ }

/-- C4 counterexample: `_compute_version_hash` hashes only
`chunk_size` and `chunk_overlap` of the configuration record, so
changing `top_k`, `bm25_weight`, `vector_weight` or
`confidence_threshold` leaves the hasher input byte-for-byte identical
— hence the md5 fingerprint identical (shown here with the digest as an
explicit function; equal inputs give equal digests for every digest
function, the identity digest included). -/
theorem fingerprint_ignores_nonchunk_fields_counterexample :
    (c4CfgTopK.top_k ≠ initConfig.top_k ∧
      versionHashInput c4Corpus c4Mtime c4CfgTopK = versionHashInput c4Corpus c4Mtime initConfig ∧
      computeVersionHash (fun s => s) c4Corpus c4Mtime c4CfgTopK =
        computeVersionHash (fun s => s) c4Corpus c4Mtime initConfig) ∧
    (c4CfgBW.bm25_weight.toRat ≠ initConfig.bm25_weight.toRat ∧
      versionHashInput c4Corpus c4Mtime c4CfgBW = versionHashInput c4Corpus c4Mtime initConfig) ∧
    (c4CfgVW.vector_weight.toRat ≠ initConfig.vector_weight.toRat ∧
      versionHashInput c4Corpus c4Mtime c4CfgVW = versionHashInput c4Corpus c4Mtime initConfig) ∧
    (c4CfgCT.confidence_threshold.toRat ≠ initConfig.confidence_threshold.toRat ∧
      versionHashInput c4Corpus c4Mtime c4CfgCT = versionHashInput c4Corpus c4Mtime initConfig) := by
  refine ⟨⟨by decide, rfl, rfl⟩, ⟨?_, rfl⟩, ⟨?_, rfl⟩, ⟨?_, rfl⟩⟩
  · norm_num [c4CfgBW, initConfig, Frac.toRat]
  · norm_num [c4CfgVW, initConfig, Frac.toRat]
  · norm_num [c4CfgCT, initConfig, Frac.toRat]

/-- C4 amended: with corpus identity held fixed, the fingerprint
depends on the configuration record only through `chunk_size` and
`chunk_overlap`: changing `chunk_size` alone or `chunk_overlap` alone
changes the hasher input (hence, md5 collisions aside, the
fingerprint), while any change to the remaining fields leaves it
unchanged. -/
theorem fingerprint_depends_only_on_chunk_fields
    (c : CorpusSpec) (m : String → Option String) (cfg cfg' : RetrieverConfig) :
    (cfg.chunk_size = cfg'.chunk_size → cfg.chunk_overlap = cfg'.chunk_overlap →
      versionHashInput c m cfg = versionHashInput c m cfg') ∧
    (cfg.chunk_overlap = cfg'.chunk_overlap → cfg.chunk_size ≠ cfg'.chunk_size →
      versionHashInput c m cfg ≠ versionHashInput c m cfg') ∧
    (cfg.chunk_size = cfg'.chunk_size → cfg.chunk_overlap ≠ cfg'.chunk_overlap →
      versionHashInput c m cfg ≠ versionHashInput c m cfg') :=
  ⟨versionHashInput_congr c m, versionHashInput_ne_of_size_ne c m,
    versionHashInput_ne_of_overlap_ne c m⟩

/-- `initConfig` with only `chunk_size` changed. -/
def c4CfgCS : RetrieverConfig := { initConfig with chunk_size := 601 }

/-- `initConfig` with only `chunk_overlap` changed. -/
def c4CfgCO : RetrieverConfig := { initConfig with chunk_overlap := 151 }

theorem fingerprint_depends_only_on_chunk_fields_witness :
    versionHashInput c4Corpus c4Mtime c4CfgTopK = versionHashInput c4Corpus c4Mtime initConfig ∧
    versionHashInput c4Corpus c4Mtime c4CfgCS ≠ versionHashInput c4Corpus c4Mtime initConfig ∧
    versionHashInput c4Corpus c4Mtime c4CfgCO ≠ versionHashInput c4Corpus c4Mtime initConfig := by
  refine ⟨?_, ?_, ?_⟩
  · exact (fingerprint_depends_only_on_chunk_fields c4Corpus c4Mtime c4CfgTopK initConfig).1
      rfl rfl
  · exact (fingerprint_depends_only_on_chunk_fields c4Corpus c4Mtime c4CfgCS initConfig).2.1
      rfl (by decide)
  · exact (fingerprint_depends_only_on_chunk_fields c4Corpus c4Mtime c4CfgCO initConfig).2.2
      rfl (by decide)

/-- C7: `_load_index` reports not-found (returns `False`, installing
nothing) whenever the persisted file's wall-clock age at load time
exceeds the 24-hour TTL, or the stored fingerprint differs from the
requested one; in particular a bundle saved under configuration `cfg`
and loaded with a configuration differing only in `chunk_overlap` is
reported not-found (under any injective digest), forcing a rebuild. -/
theorem load_index_rejects_stale_or_mismatched (env : LoadEnv) (ch : String) :
    ((24 : ℚ) < (indexAgeHours env).toRat → loadIndex env ch = none) ∧
    (∀ d, env.stored = some d → d.indexHash ≠ some ch → loadIndex env ch = none) ∧
    (∀ digest : String → String, Function.Injective digest →
      ∀ (c : CorpusSpec) (m : String → Option String) (cfg cfg' : RetrieverConfig)
        (d : StoredBundle),
        cfg.chunk_size = cfg'.chunk_size → cfg.chunk_overlap ≠ cfg'.chunk_overlap →
        env.stored = some d → d.indexHash = some (computeVersionHash digest c m cfg) →
        loadIndex env (computeVersionHash digest c m cfg') = none) := by
  have main2 : ∀ (h' : String) d, env.stored = some d → d.indexHash ≠ some h' →
      loadIndex env h' = none := by
    intro h' d hst hne
    unfold loadIndex
    by_cases hf : env.filesPresent = false
    · rw [if_pos hf]
    · rw [if_neg hf]
      by_cases hb : Frac.blt ⟨24, 1, Nat.one_pos⟩ (indexAgeHours env) = true
      · rw [if_pos hb]
      · rw [if_neg hb, hst]
        dsimp only
        rw [if_pos hne]
  refine ⟨?_, main2 ch, ?_⟩
  · intro hage
    have hblt : Frac.blt ⟨24, 1, Nat.one_pos⟩ (indexAgeHours env) = true := by
      apply (Frac.toRat_blt _ _).mpr
      have h24 : (⟨24, 1, Nat.one_pos⟩ : Frac).toRat = 24 := by norm_num [Frac.toRat]
      rw [h24]
      exact hage
    unfold loadIndex
    by_cases hf : env.filesPresent = false
    · rw [if_pos hf]
    · rw [if_neg hf, if_pos hblt]
  · intro digest hinj c m cfg cfg' d hsz hov hst hdh
    apply main2 _ d hst
    rw [hdh]
    intro h
    exact versionHashInput_ne_of_overlap_ne c m hsz hov (hinj (Option.some.inj h))

/-- Load environment whose persisted file is 25 hours old. -/
def c7EnvTTL : LoadEnv :=
  { filesPresent := true
    now := ⟨90000, 1, Nat.one_pos⟩
    bm25Mtime := ⟨0, 1, Nat.one_pos⟩
    stored := some ⟨[], some "current"⟩
    faissOk := true }

/-- A stored bundle whose fingerprint does not match the request. -/
def c7Bundle : StoredBundle := ⟨[], some "stored-hash"⟩

/-- Fresh load environment holding `c7Bundle`. -/
def c7EnvMismatch : LoadEnv :=
  { filesPresent := true
    now := ⟨0, 1, Nat.one_pos⟩
    bm25Mtime := ⟨0, 1, Nat.one_pos⟩
    stored := some c7Bundle
    faissOk := true }

/-- Corpus identity for the C7 overlap-change scenario. -/
def c7Corpus : CorpusSpec := ⟨some "v1", none⟩

/-- Mtime oracle for the C7 overlap-change scenario. -/
def c7Mtime : String → Option String := fun _ => none

/-- The save-time configuration of the C7 overlap-change scenario. -/
def c7CfgA : RetrieverConfig := initConfig

/-- The load-time configuration: only `chunk_overlap` differs. -/
def c7CfgB : RetrieverConfig := { initConfig with chunk_overlap := 151 }

/-- Bundle persisted under `c7CfgA`'s fingerprint (identity digest). -/
def c7BundleB : StoredBundle :=
  ⟨[], some (computeVersionHash (fun s => s) c7Corpus c7Mtime c7CfgA)⟩

/-- Fresh load environment holding `c7BundleB`. -/
def c7EnvOverlap : LoadEnv :=
  { filesPresent := true
    now := ⟨0, 1, Nat.one_pos⟩
    bm25Mtime := ⟨0, 1, Nat.one_pos⟩
    stored := some c7BundleB
    faissOk := true }

theorem load_index_rejects_stale_or_mismatched_witness :
    (24 : ℚ) < (indexAgeHours c7EnvTTL).toRat ∧
    loadIndex c7EnvTTL "current" = none ∧
    loadIndex c7EnvMismatch "current" = none ∧
    loadIndex c7EnvOverlap (computeVersionHash (fun s => s) c7Corpus c7Mtime c7CfgB) = none := by
  have hage : (24 : ℚ) < (indexAgeHours c7EnvTTL).toRat := by
    have hb : Frac.blt ⟨24, 1, Nat.one_pos⟩ (indexAgeHours c7EnvTTL) = true := by decide
    have hlt := (Frac.toRat_blt _ _).mp hb
    have h24 : (⟨24, 1, Nat.one_pos⟩ : Frac).toRat = 24 := by norm_num [Frac.toRat]
    rw [h24] at hlt
    exact hlt
  refine ⟨hage, ?_, ?_, ?_⟩
  · exact (load_index_rejects_stale_or_mismatched c7EnvTTL "current").1 hage
  · exact (load_index_rejects_stale_or_mismatched c7EnvMismatch "current").2.1 c7Bundle rfl
      (by decide)
  · exact (load_index_rejects_stale_or_mismatched c7EnvOverlap "current").2.2 (fun s => s)
      (fun a b h => h) c7Corpus c7Mtime c7CfgA c7CfgB c7BundleB rfl (by decide) rfl rfl

/-- C8: fingerprint computation is deterministic — it is a pure
function of the corpus identity, the mtime oracle and the configuration
— and when the corpus identity is a list of document paths the
fingerprint is invariant under any permutation of that list, because
the code sorts the paths before hashing. -/
theorem fingerprint_deterministic_and_order_invariant
    (digest : String → String) (m : String → Option String) (cfg : RetrieverConfig) :
    (∀ c : CorpusSpec, computeVersionHash digest c m cfg = computeVersionHash digest c m cfg) ∧
    (∀ ps ps' : List String, ps.Perm ps' →
      computeVersionHash digest ⟨none, some ps⟩ m cfg =
        computeVersionHash digest ⟨none, some ps'⟩ m cfg) := by
  refine ⟨fun c => rfl, ?_⟩
  intro ps ps' hperm
  have hsort := sortStrings_perm_inv hperm
  unfold computeVersionHash versionHashInput corpusInput
  cases ps with
  | nil =>
    have h' : ps' = [] := List.Perm.eq_nil hperm.symm
    subst h'
    rfl
  | cons p pt =>
    cases ps' with
    | nil => exact absurd (List.Perm.eq_nil hperm) (List.cons_ne_nil p pt)
    | cons r rt =>
      dsimp only [truthyStr, truthyList]
      rw [hsort]

theorem fingerprint_deterministic_and_order_invariant_witness :
    (["b", "a"] : List String).Perm ["a", "b"] ∧
    computeVersionHash (fun s => s) ⟨none, some ["b", "a"]⟩ (fun _ => none) initConfig =
      computeVersionHash (fun s => s) ⟨none, some ["a", "b"]⟩ (fun _ => none) initConfig := by
  have hp : (["b", "a"] : List String).Perm ["a", "b"] := List.Perm.swap "a" "b" []
  exact ⟨hp,
    (fingerprint_deterministic_and_order_invariant (fun s => s) (fun _ => none) initConfig).2
      ["b", "a"] ["a", "b"] hp⟩

/-- C5: `_build_retrievers` asks both retrievers for
`max(top_k, 5) * 2` candidates — `top_k * 2` for the instance value
`top_k = 5` — installs the weights `[0.6, 0.4]`, and (fusion rule
modelled from the spec, the `EnsembleRetriever` being external
langchain code) a chunk's fused score is
`bm25_weight / (sparse_rank + 1) + vector_weight / (dense_rank + 1)`,
a list not containing the chunk contributing zero. -/
theorem ensemble_k_and_fusion_weights (sparse dense : List Nat) (chunk : Nat) :
    (buildRetrieverParams initConfig).bm25K = initConfig.top_k * 2 ∧
    (buildRetrieverParams initConfig).faissK = initConfig.top_k * 2 ∧
    (buildRetrieverParams initConfig).weights =
      [initConfig.bm25_weight, initConfig.vector_weight] ∧
    initConfig.bm25_weight.toRat = 3 / 5 ∧
    initConfig.vector_weight.toRat = 2 / 5 ∧
    (∀ r1 r2, List.indexOf? chunk sparse = some r1 → List.indexOf? chunk dense = some r2 →
      fusedScore (3 / 5) (2 / 5) sparse dense chunk =
        (3 / 5) / ((r1 : ℚ) + 1) + (2 / 5) / ((r2 : ℚ) + 1)) ∧
    (∀ r1, List.indexOf? chunk sparse = some r1 → List.indexOf? chunk dense = none →
      fusedScore (3 / 5) (2 / 5) sparse dense chunk = (3 / 5) / ((r1 : ℚ) + 1)) ∧
    (∀ r2, List.indexOf? chunk sparse = none → List.indexOf? chunk dense = some r2 →
      fusedScore (3 / 5) (2 / 5) sparse dense chunk = (2 / 5) / ((r2 : ℚ) + 1)) := by
  refine ⟨rfl, rfl, rfl, by norm_num [initConfig, Frac.toRat], by norm_num [initConfig, Frac.toRat],
    ?_, ?_, ?_⟩
  · intro r1 r2 h1 h2
    unfold fusedScore rankContribution
    rw [h1, h2]
  · intro r1 h1 h2
    unfold fusedScore rankContribution
    rw [h1, h2]
    simp
  · intro r2 h1 h2
    unfold fusedScore rankContribution
    rw [h1, h2]
    simp

theorem ensemble_k_and_fusion_weights_witness :
    List.indexOf? 7 [3, 7] = some 1 ∧
    List.indexOf? 7 [7, 9] = some 0 ∧
    fusedScore (3 / 5) (2 / 5) [3, 7] [7, 9] 7 =
      (3 / 5) / (((1 : Nat) : ℚ) + 1) + (2 / 5) / (((0 : Nat) : ℚ) + 1) := by
  refine ⟨by decide, by decide, ?_⟩
  exact (ensemble_k_and_fusion_weights [3, 7] [7, 9] 7).2.2.2.2.2.1 1 0 (by decide) (by decide)

theorem scoreDocs_length (q : String) : ∀ (n : Nat) (docs : List PyDoc),
    (scoreDocs q n docs).length = docs.length := by
  intro n docs
  induction docs generalizing n with
  | nil => rfl
  | cons d ds ih => simp [scoreDocs, ih]

theorem scoreDocs_get (q : String) : ∀ (docs : List PyDoc) (n r : Nat)
    (h1 : r < docs.length) (h2 : r < (scoreDocs q n docs).length),
    (scoreDocs q n docs).get ⟨r, h2⟩ = resultOf q (n + r) (docs.get ⟨r, h1⟩) := by
  intro docs
  induction docs with
  | nil =>
    intro n r h1
    exact absurd h1 (by simp)
  | cons d ds ih =>
    intro n r h1 h2
    cases r with
    | zero => rfl
    | succ r' =>
      have hih := ih (n + 1) r' (by simpa using h1)
        (by rw [scoreDocs_length]; simpa using h1)
      calc (scoreDocs q n (d :: ds)).get ⟨r' + 1, h2⟩
          = (scoreDocs q (n + 1) ds).get ⟨r', by rw [scoreDocs_length]; simpa using h1⟩ := rfl
        _ = resultOf q ((n + 1) + r') (ds.get ⟨r', by simpa using h1⟩) := hih
        _ = resultOf q (n + (r' + 1)) ((d :: ds).get ⟨r' + 1, h1⟩) := by
            congr 1
            omega

/-- C6: the re-scored value of the candidate at 0-based rank `r` is
`1/(r+1)` plus `0.1` per distinct query token (stop words removed)
found in the lower-cased chunk text, plus a flat `0.2` when the text
contains any of the fixed structural/procedural markers. -/
theorem rescoring_formula (q : String) (docs : List PyDoc) (r : Nat) (hr : r < docs.length) :
    ((scoreDocs q 0 docs).get ⟨r, by rw [scoreDocs_length]; exact hr⟩).score.toRat =
      1 / ((r : ℚ) + 1) +
        (1 / 10) * (keywordHits q (lowerStr (docs.get ⟨r, hr⟩).content) : ℚ) +
        (if hasActionMarker (lowerStr (docs.get ⟨r, hr⟩).content) = true then 1 / 5 else 0) := by
  rw [scoreDocs_get q docs 0 r hr]
  simp only [Nat.zero_add]
  unfold resultOf scoreOf
  simp only [Frac.toRat_add]
  have hbase : (⟨1, r + 1, Nat.succ_pos r⟩ : Frac).toRat = 1 / ((r : ℚ) + 1) := by
    simp only [Frac.toRat]
    push_cast
    ring
  have hkw : (⟨(keywordHits q (lowerStr (docs.get ⟨r, hr⟩).content) : Int), 10,
      by norm_num⟩ : Frac).toRat =
      (1 / 10) * (keywordHits q (lowerStr (docs.get ⟨r, hr⟩).content) : ℚ) := by
    simp only [Frac.toRat]
    push_cast
    ring
  have hact : (if hasActionMarker (lowerStr (docs.get ⟨r, hr⟩).content) then
        (⟨1, 5, by norm_num⟩ : Frac) else (⟨0, 1, Nat.one_pos⟩ : Frac)).toRat =
      (if hasActionMarker (lowerStr (docs.get ⟨r, hr⟩).content) = true then (1 : ℚ) / 5 else 0) := by
    split
    · norm_num [Frac.toRat]
    · norm_num [Frac.toRat]
  rw [hbase, hkw, hact]

/-- The single chunk used by the C6 witness. -/
def c6Doc : PyDoc := ⟨"Action Name: Apply Leave. Step 1: click Apply.", some "Master.docx", some 0⟩

theorem rescoring_formula_witness :
    ((scoreDocs "apply leave" 0 [c6Doc]).get ⟨0, by rw [scoreDocs_length]; decide⟩).score.toRat =
      1 / ((0 : ℚ) + 1) +
        (1 / 10) * (keywordHits "apply leave" (lowerStr c6Doc.content) : ℚ) +
        (if hasActionMarker (lowerStr c6Doc.content) = true then 1 / 5 else 0) := by
  have h := rescoring_formula "apply leave" [c6Doc] 0 (by decide)
  simpa using h

/-- C9: query expansion is purely additive — the expanded string is the
original query (unchanged, as a prefix) followed, when any domain
keyword occurs in the case-folded query, by exactly the deduplicated
union of the matching keywords' synonym sets; a query containing both
`"apply"` and `"leave"` gains `"request"` and `"submit"`. -/
theorem query_expansion_additive (query : String) :
    (expandQuery query = query ∨
      expandQuery query = query ++ " " ++ joinWith " " (expansionTerms query)) ∧
    (∀ t, t ∈ expansionTerms query ↔
      ∃ kv ∈ actionExpansions, strHasSub (lowerStr (stripStr query)) kv.1 = true ∧ t ∈ kv.2) ∧
    (strHasSub (lowerStr (stripStr query)) "apply" = true →
      strHasSub (lowerStr (stripStr query)) "leave" = true →
      "request" ∈ expansionTerms query ∧ "submit" ∈ expansionTerms query) := by
  have hmem : ∀ t, t ∈ expansionTerms query ↔
      ∃ kv ∈ actionExpansions, strHasSub (lowerStr (stripStr query)) kv.1 = true ∧ t ∈ kv.2 := by
    intro t
    unfold expansionTerms
    simp only [List.mem_dedup, List.mem_flatten, List.mem_map, List.mem_filter]
    constructor
    · rintro ⟨l, ⟨kv, ⟨hkv, hsub⟩, rfl⟩, ht⟩
      exact ⟨kv, hkv, hsub, ht⟩
    · rintro ⟨kv, hkv, hsub, ht⟩
      exact ⟨kv.2, ⟨kv, ⟨hkv, hsub⟩, rfl⟩, ht⟩
  refine ⟨?_, hmem, ?_⟩
  · cases h : expansionTerms query with
    | nil =>
      left
      unfold expandQuery
      rw [h]
    | cons t ts =>
      right
      unfold expandQuery
      rw [h]
  · intro ha hl
    constructor
    · exact (hmem "request").mpr
        ⟨("apply", ["request", "submit", "file"]), by simp [actionExpansions], ha, by simp⟩
    · exact (hmem "submit").mpr
        ⟨("apply", ["request", "submit", "file"]), by simp [actionExpansions], ha, by simp⟩

theorem query_expansion_additive_witness :
    strHasSub (lowerStr (stripStr "how do I apply for leave")) "apply" = true ∧
    strHasSub (lowerStr (stripStr "how do I apply for leave")) "leave" = true ∧
    "request" ∈ expansionTerms "how do I apply for leave" ∧
    "submit" ∈ expansionTerms "how do I apply for leave" ∧
    (expandQuery "how do I apply for leave" = "how do I apply for leave" ∨
      expandQuery "how do I apply for leave" =
        "how do I apply for leave" ++ " " ++
          joinWith " " (expansionTerms "how do I apply for leave")) := by
  have h := query_expansion_additive "how do I apply for leave"
  have h3 := h.2.2 (by decide) (by decide)
  exact ⟨by decide, by decide, h3.1, h3.2, h.1⟩

/-- C10: with nothing loadable from disk and an empty corpus (no master
document found), `build_index` returns leaving the retriever exactly in
its unbuilt initial state — no vector store, no ensemble retriever, no
documents — and every subsequent search returns the empty list from the
retriever and the miss sentinel from the tool, never an exception. -/
theorem empty_corpus_unbuilt_and_miss
    (digest : String → String) (corpus : CorpusSpec) (cfg : RetrieverConfig)
    (benv : BuildEnv) (force : Bool) (env : SearchEnv) (q : String) (t : Option Nat)
    (thr : Frac)
    (hfiles : benv.lenv.filesPresent = false) (hraw : benv.rawDocs = []) :
    buildIndex digest corpus cfg benv initState force = initState ∧
    searchE initState env q t = Except.ok [] ∧
    runE initState env thr q = missSentinel := by
  refine ⟨?_, searchE_unbuilt env q t rfl, rfl⟩
  have hload : loadIndex benv.lenv (computeVersionHash digest corpus benv.mtimeOf cfg) = none := by
    unfold loadIndex
    rw [if_pos hfiles]
  unfold buildIndex
  cases force with
  | true => simp [hraw]
  | false => simp [hload, hraw]

/-- Build environment of the C10 witness: nothing persisted, empty
corpus. -/
def c10BuildEnv : BuildEnv :=
  { lenv :=
      { filesPresent := false
        now := ⟨0, 1, Nat.one_pos⟩
        bm25Mtime := ⟨0, 1, Nat.one_pos⟩
        stored := none
        faissOk := false }
    rawDocs := []
    chunker := fun l => l
    mtimeOf := fun _ => none }

/-- Search environment of the C10 witness. -/
def c10Env : SearchEnv := ⟨[], none, Except.ok [], none⟩

theorem empty_corpus_unbuilt_and_miss_witness :
    buildIndex (fun s => s) ⟨none, none⟩ initConfig c10BuildEnv initState false = initState ∧
    searchE initState c10Env "apply leave" (some 5) = Except.ok [] ∧
    runE initState c10Env initConfig.confidence_threshold "apply leave" = missSentinel := by
  exact empty_corpus_unbuilt_and_miss (fun s => s) ⟨none, none⟩ initConfig c10BuildEnv false
    c10Env "apply leave" (some 5) initConfig.confidence_threshold rfl rfl

end HRBot
